import Mathlib

/-! # sial.org-scripts: a verification development

Shallow embedding of

* `signal/jitterbits.c`  (`handle_alarm`, `emit_help`, `main`),
* `filesys/stripeofeol.c` (`trim_file`),
* `date-time/c-delta-time.c` (`main`),

followed by theorems about the embedded functions.

Conventions.  A `uint8_t` object is a `Nat` that the operations keep below
`256` (every store is reduced `% 256`).  A `long` is an `Int`.  Calls into the
C library and the kernel are not part of the repository: their results are
inputs of the model, and the calls a function makes are recorded as events.
-/

namespace Jitterbits

/-! ## `signal/jitterbits.c` : the accumulator -/

/-- The two fields of `struct timeval` as filled in by `gettimeofday`. -/
structure timeval where
  tv_sec : Int
  tv_usec : Int
  deriving DecidableEq, Repr

/-- The globals `uint8_t Rand, Whence;`. -/
structure State where
  Rand : Nat
  Whence : Nat
  deriving DecidableEq, Repr

/-- Objects with static storage duration start out zeroed. -/
def State.init : State := ⟨0, 0⟩

/-- The constant from `#define ROLLOVER 8`. -/
def ROLLOVER : Nat := 8

/-- The value of `now.tv_usec & 1`: a `long` that is `0` or `1`, kept as a `Nat`. -/
def jitter_bit (now : timeval) : Nat := (Int.land now.tv_usec 1).toNat

/-- What one call of `handle_alarm` did: the globals afterwards, the shift
amount used (the value of the expression `Whence++`), and the argument of the
`printf("%u\n", Rand)` call when that call was made. -/
structure Step where
  next : State
  shift : Nat
  printed : Option Nat
  deriving DecidableEq, Repr

/-- The signal handler.

    Rand ^= (now.tv_usec & 1) << Whence++;
    if (Whence >= ROLLOVER) { Whence = 0; printf("%u\n", Rand); }

`now` is what `gettimeofday` stored.  The shift is exact for the shift amounts
below the width of `long`; the stores into the `uint8_t` globals reduce
modulo `256`. -/
def handle_alarm (s : State) (now : timeval) : Step :=
  let sh := s.Whence
  let Rand := (s.Rand ^^^ (jitter_bit now <<< sh)) % 256
  let Whence := (s.Whence + 1) % 256
  if Whence ≥ ROLLOVER then
    { next := ⟨Rand, 0⟩, shift := sh, printed := some Rand }
  else
    { next := ⟨Rand, Whence⟩, shift := sh, printed := none }

/-- The handler run once per timer firing, in firing order: the final globals
and, per firing, what that firing did. -/
def run : State → List timeval → State × List Step
  | s, [] => (s, [])
  | s, now :: rest =>
    let st := handle_alarm s now
    let r := run st.next rest
    (r.1, st :: r.2)

/-- Per firing, the argument of the `printf` call of that firing, if any. -/
def prints (s : State) (ts : List timeval) : List (Option Nat) :=
  (run s ts).2.map Step.printed

/-- The values handed to `printf`, in firing order. -/
def emitted (s : State) (ts : List timeval) : List Nat :=
  (prints s ts).filterMap id

/-- The firing numbers (counted from 1) during which `printf` was called. -/
def emission_firings (s : State) (ts : List timeval) : List Nat :=
  ((List.range (prints s ts).length).filter
    (fun i => ((prints s ts).getD i none).isSome)).map (· + 1)

/-! ### Vocabulary of the specification -/

/-- The least-significant bit of the microsecond field of a timestamp. -/
def usec_lsb (now : timeval) : Nat := (now.tv_usec % 2).toNat

/-- The byte `p_j` of the `j`-th group of eight timestamps, `j` counted from
one: its bit `i` is the least-significant bit of the microsecond field of
timestamp number `8 * (j - 1) + i + 1`. -/
def cycle_byte (ts : List timeval) (j : Nat) : Nat :=
  ((List.range 8).map (fun i => usec_lsb (ts.getD (8 * (j - 1) + i) ⟨0, 0⟩) * 2 ^ i)).sum

/-- The bitwise exclusive-or of `p_1, ..., p_k`. -/
def xor_cycles (ts : List timeval) : Nat → Nat
  | 0 => 0
  | k + 1 => xor_cycles ts k ^^^ cycle_byte ts (k + 1)

/-! ### Standard output -/

/-- The bytes `printf("%u\n", v)` puts on standard output: the decimal digits
of `v`, most significant first, and a newline. -/
def printf_u_nl (v : Nat) : List Nat :=
  (Nat.toDigits 10 v).map Char.toNat ++ ['\n'.toNat]

/-- The bytes one call of the handler puts on standard output. -/
def Step.stdout (st : Step) : List Nat :=
  match st.printed with
  | none => []
  | some v => printf_u_nl v

/-- The bytes a sequence of firings puts on standard output. -/
def stdout_of_run (s : State) (ts : List timeval) : List Nat :=
  ((run s ts).2.map Step.stdout).flatten

/-! ### `emit_help` and `main` -/

/-- Exit status `EX_USAGE` of `<sysexits.h>`. -/
def EX_USAGE : Nat := 64
/-- Exit status `EX_OSERR` of `<sysexits.h>`. -/
def EX_OSERR : Nat := 71
/-- Exit status `EX_IOERR` of `<sysexits.h>`. -/
def EX_IOERR : Nat := 74

/-- The library and system calls made by `main` and `emit_help`, with the
results they returned.  `err` is `err(3)`: a diagnostic built from the format
on standard error, then `exit(eval)`.  `poll_forever` is the
`for (;;) poll(pfd, 1, 60 * 10000);` loop, which is never left. -/
inductive Event where
  | getopt (ret : Int)
  | setlinebuf_stdout
  | signal_SIGALRM (ok : Bool)
  | setitimer (it_value_sec it_interval_sec : Int) (ret : Int)
  | isatty_stdin (tty : Bool)
  | fprintf_stderr (text : List Char)
  | mkstemp (ret : Int)
  | err (eval : Nat) (fmt : String)
  | exit (status : Nat)
  | poll_forever
  deriving DecidableEq, Repr

/-- What the environment answers to `main`: `*argv`, the value of the first
`getopt` call, whether `signal` returned something other than `SIG_ERR`, and
the values of `setitimer`, `isatty` and `mkstemp`. -/
structure Env where
  argv0 : List Char
  getopt_ret : Int
  signal_ok : Bool
  setitimer_ret : Int
  stdin_tty : Bool
  mkstemp_ret : Int
  deriving DecidableEq, Repr

/-- The C library's `strrchr` on a string without its terminator: the tail
starting at the last occurrence of `c`, or `none` for `NULL`. -/
def strrchr : List Char → Char → Option (List Char)
  | [], _ => none
  | x :: xs, c =>
    match strrchr xs c with
    | some t => some t
    | none => if x = c then some (x :: xs) else none

/-- The name `emit_help` prints:

    if ((shortname = strrchr(Program_Name, '/')) != NULL) shortname++;
    else shortname = Program_Name; -/
def shortname (Program_Name : List Char) : List Char :=
  match strrchr Program_Name '/' with
  | some p => p.drop 1
  | none => Program_Name

/-- The calls of `emit_help`:
`fprintf(stderr, "Usage: %s\n", shortname); exit(EX_USAGE);`. -/
def emit_help (Program_Name : List Char) : List Event :=
  [Event.fprintf_stderr ("Usage: ".toList ++ shortname Program_Name ++ ['\n']),
   Event.exit EX_USAGE]

/-- The calls of `main`, in order.  Every arm of the `switch` inside the
`getopt` loop calls `emit_help`, which does not return, so `getopt` is called
once. -/
def main (env : Env) : List Event :=
  Event.getopt env.getopt_ret ::
  if env.getopt_ret ≠ -1 then
    emit_help env.argv0
  else
    Event.setlinebuf_stdout ::
    Event.signal_SIGALRM env.signal_ok ::
    if env.signal_ok = false then
      [Event.err EX_OSERR "could not setup signal() handler"]
    else
      Event.setitimer 1 1 env.setitimer_ret ::
      if env.setitimer_ret = -1 then
        [Event.err EX_OSERR "could not setitimer()"]
      else
        Event.isatty_stdin env.stdin_tty ::
        if env.stdin_tty then
          [Event.poll_forever]
        else
          Event.fprintf_stderr "notice: doing mkstemp to create file to poll...\n".toList ::
          Event.mkstemp env.mkstemp_ret ::
          if env.mkstemp_ret = -1 then
            [Event.err EX_IOERR "mkstemp failed to create tmp file"]
          else
            [Event.poll_forever]

/-- The exit status of a terminated trace; `none` while the process lives. -/
def exit_status : List Event → Option Nat
  | [] => none
  | Event.err eval _ :: _ => some eval
  | Event.exit status :: _ => some status
  | _ :: rest => exit_status rest

/-- The handler is installed and the interval timer is armed: the only
situation in which `handle_alarm` is ever called. -/
def timer_running (tr : List Event) : Bool :=
  tr.any (fun e => match e with
    | Event.signal_SIGALRM ok => ok
    | _ => false) &&
  tr.any (fun e => match e with
    | Event.setitimer _ _ ret => decide (ret ≠ -1)
    | _ => false)

/-- Standard output of the whole program when the timer, if it runs, delivers
the firings `ts` before the process ends.  `main` and `emit_help` write
nothing to standard output themselves. -/
def program_stdout (env : Env) (ts : List timeval) : List Nat :=
  if timer_running (main env) then stdout_of_run State.init ts else []

end Jitterbits

/-! ## `filesys/stripeofeol.c` -/

namespace Stripeofeol

/-- The `for` loop of `trim_file`, started at loop counter `i` with the given
`only_newlines` and `trunc_size`; the result is the final
`(only_newlines, trunc_size)`.

    for (i = 1; i <= start_size; i++) {
        lseek(fd, i * -1, SEEK_END);  read(fd, &buf, 1);
        switch (buf[0]) {
        case '\n': case '\r': break;
        default: only_newlines = 0; trunc_size = lseek(fd, 0, SEEK_CUR);
                 i = start_size;
        }
    }

The file is `data`; `lseek(fd, -i, SEEK_END)` moves to offset
`start_size - i`, `read` takes the byte there and moves one further, and
`lseek(fd, 0, SEEK_CUR)` reports that offset.  `none` stands for a read
outside the file or for running out of `fuel`. -/
def trim_loop (data : List Char) (start_size : Nat) :
    Nat → Nat → Bool → Nat → Option (Bool × Nat)
  | 0, _, _, _ => none
  | fuel + 1, i, only_newlines, trunc_size =>
    if i ≤ start_size then
      match data[start_size - i]? with
      | none => none
      | some c =>
        if c = '\n' ∨ c = '\r' then
          trim_loop data start_size fuel (i + 1) only_newlines trunc_size
        else
          trim_loop data start_size fuel (start_size + 1) false (start_size - i + 1)
    else
      some (only_newlines, trunc_size)

/-- The function `trim_file` on the content of the file behind `fd`: the
content afterwards.  `ftruncate(fd, trunc_size)` keeps the first `trunc_size`
bytes. -/
def trim_file (data : List Char) : Option (List Char) :=
  let start_size := data.length
  if start_size = 0 then
    some data
  else
    match trim_loop data start_size (start_size + 1) 1 true start_size with
    | none => none
    | some (only_newlines, trunc_size) =>
      let trunc_size := if only_newlines = true then 0 else trunc_size
      if trunc_size < start_size then some (data.take trunc_size) else some data

end Stripeofeol

/-! ## `date-time/c-delta-time.c` -/

namespace DeltaTime

end DeltaTime

/-! # Theorems -/

namespace Jitterbits

/-! ### Basic facts about the handler -/

theorem ldiff_one (m : Nat) : Nat.ldiff 1 m = (m + 1) % 2 := by
  apply Nat.eq_of_testBit_eq
  intro i
  rw [Nat.ldiff, Nat.testBit_bitwise (by rfl)]
  cases i with
  | zero =>
    rcases Nat.mod_two_eq_zero_or_one m with h | h <;>
      simp [Nat.testBit_zero, Nat.add_mod, h]
  | succ j =>
    have h : (m + 1) % 2 < 2 ^ (j + 1) := by
      have : 2 ≤ 2 ^ (j + 1) := by
        calc 2 = 2 ^ 1 := by norm_num
          _ ≤ 2 ^ (j + 1) := Nat.pow_le_pow_right (by norm_num) (by omega)
      omega
    rw [Nat.testBit_lt_two_pow h]
    simp [Nat.testBit_succ]

theorem jitter_bit_eq (now : timeval) : jitter_bit now = (now.tv_usec % 2).toNat := by
  unfold jitter_bit
  rcases now with ⟨sec, usec⟩
  cases usec with
  | ofNat m =>
    show (Int.land (Int.ofNat m) (Int.ofNat 1)).toNat = _
    simp only [Int.land]
    simp
  | negSucc m =>
    show (Int.land (Int.negSucc m) (Int.ofNat 1)).toNat = _
    simp only [Int.land, ldiff_one]
    rw [Int.negSucc_eq]
    omega

theorem jitter_bit_eq_lsb (now : timeval) : jitter_bit now = usec_lsb now :=
  jitter_bit_eq now

theorem jitter_bit_le_one (now : timeval) : jitter_bit now ≤ 1 := by
  rw [jitter_bit_eq]
  omega

theorem handle_alarm_below (s : State) (now : timeval) (h : s.Whence + 1 < 8) :
    handle_alarm s now =
      { next := ⟨(s.Rand ^^^ (jitter_bit now <<< s.Whence)) % 256, s.Whence + 1⟩,
        shift := s.Whence, printed := none } := by
  have h1 : (s.Whence + 1) % 256 = s.Whence + 1 := Nat.mod_eq_of_lt (by omega)
  simp only [handle_alarm, ROLLOVER, h1]
  rw [if_neg (by omega)]

theorem handle_alarm_full (s : State) (now : timeval) (h : s.Whence + 1 = 8) :
    handle_alarm s now =
      { next := ⟨(s.Rand ^^^ (jitter_bit now <<< s.Whence)) % 256, 0⟩,
        shift := s.Whence,
        printed := some ((s.Rand ^^^ (jitter_bit now <<< s.Whence)) % 256) } := by
  simp only [handle_alarm, ROLLOVER, h]
  rw [if_pos (by norm_num)]

theorem handle_alarm_whence (s : State) (now : timeval) (h : s.Whence < 8) :
    (handle_alarm s now).next.Whence = (s.Whence + 1) % 8 := by
  by_cases h7 : s.Whence + 1 = 8
  · rw [handle_alarm_full s now h7, h7]
  · rw [handle_alarm_below s now (by omega)]
    show s.Whence + 1 = (s.Whence + 1) % 8
    exact (Nat.mod_eq_of_lt (by omega)).symm

theorem handle_alarm_printed (s : State) (now : timeval) (h : s.Whence < 8) :
    (handle_alarm s now).printed.isSome = decide ((s.Whence + 1) % 8 = 0) := by
  by_cases h7 : s.Whence + 1 = 8
  · rw [handle_alarm_full s now h7, h7]
    rfl
  · rw [handle_alarm_below s now (by omega)]
    have : (s.Whence + 1) % 8 ≠ 0 := by omega
    simp [this]

theorem handle_alarm_shift (s : State) (now : timeval) :
    (handle_alarm s now).shift = s.Whence := by
  simp only [handle_alarm]
  split <;> rfl

theorem run_cons (s : State) (now : timeval) (rest : List timeval) :
    run s (now :: rest) =
      ((run (handle_alarm s now).next rest).1,
        handle_alarm s now :: (run (handle_alarm s now).next rest).2) := rfl

theorem run_length (ts : List timeval) : ∀ s : State, (run s ts).2.length = ts.length := by
  induction ts with
  | nil => intro s; rfl
  | cons t rest ih => intro s; rw [run_cons]; simp [ih]

theorem run_whence (ts : List timeval) :
    ∀ s : State, s.Whence < 8 → (run s ts).1.Whence = (s.Whence + ts.length) % 8 := by
  induction ts with
  | nil => intro s h; simp [run]; omega
  | cons t rest ih =>
    intro s h
    rw [run_cons]
    have hw := handle_alarm_whence s t h
    have hlt : (handle_alarm s t).next.Whence < 8 := by rw [hw]; omega
    show (run (handle_alarm s t).next rest).1.Whence = _
    rw [ih _ hlt, hw, List.length_cons]
    omega

theorem run_shift (ts : List timeval) :
    ∀ s : State, s.Whence < 8 → ∀ st ∈ (run s ts).2, st.shift < 8 := by
  induction ts with
  | nil => intro s _ st hst; simp [run] at hst
  | cons t rest ih =>
    intro s h st hst
    rw [run_cons] at hst
    have hw := handle_alarm_whence s t h
    have hlt : (handle_alarm s t).next.Whence < 8 := by rw [hw]; omega
    rcases List.mem_cons.mp hst with heq | hmem
    · rw [heq, handle_alarm_shift]; exact h
    · exact ih _ hlt st hmem

theorem prints_cons (s : State) (now : timeval) (rest : List timeval) :
    prints s (now :: rest) =
      (handle_alarm s now).printed :: prints (handle_alarm s now).next rest := rfl

theorem prints_length (s : State) (ts : List timeval) : (prints s ts).length = ts.length := by
  simp [prints, run_length]

/-- Which firings print, started from any cursor below `ROLLOVER`. -/
theorem prints_isSome (ts : List timeval) :
    ∀ s : State, s.Whence < 8 →
      (prints s ts).map Option.isSome =
        (List.range ts.length).map (fun i => decide ((s.Whence + i + 1) % 8 = 0)) := by
  induction ts with
  | nil => intro s _; rfl
  | cons t rest ih =>
    intro s h
    have hw := handle_alarm_whence s t h
    have hlt : (handle_alarm s t).next.Whence < 8 := by rw [hw]; omega
    rw [prints_cons, List.map_cons, ih _ hlt, handle_alarm_printed s t h, List.length_cons,
      List.range_succ_eq_map, List.map_cons, List.map_map]
    congr 1
    apply List.map_congr_left
    intro i _
    simp only [Function.comp, hw]
    congr 1
    apply propext
    constructor <;> intro h' <;> omega

end Jitterbits

namespace Jitterbits

/-! ### Counting the firings that print -/

theorem length_filterMap_id (l : List (Option Nat)) :
    (l.filterMap id).length = (l.map Option.isSome).count true := by
  induction l with
  | nil => rfl
  | cons x xs ih =>
    cases x with
    | none => simpa using ih
    | some v => simp [ih]

theorem count_eighth (N : Nat) :
    ((List.range N).map (fun i => decide ((i + 1) % 8 = 0))).count true = N / 8 := by
  induction N with
  | zero => rfl
  | succ n ih =>
    rw [List.range_succ, List.map_append, List.count_append, ih]
    by_cases h : (n + 1) % 8 = 0
    · simp [h]
      omega
    · simp [h]
      omega

theorem filter_eighth (N : Nat) :
    ((List.range N).filter (fun i => decide ((i + 1) % 8 = 0))).map (· + 1) =
      (List.range (N / 8)).map (fun k => 8 * (k + 1)) := by
  induction N with
  | zero => rfl
  | succ n ih =>
    rw [List.range_succ, List.filter_append, List.map_append, ih]
    by_cases h : (n + 1) % 8 = 0
    · have hd : (n + 1) / 8 = n / 8 + 1 := by omega
      rw [hd, List.range_succ, List.map_append]
      simp [h]
      omega
    · have hd : (n + 1) / 8 = n / 8 := by omega
      rw [hd]
      simp [h]

theorem prints_getD_isSome (ts : List timeval) (s : State) (h : s.Whence < 8) (i : Nat)
    (hi : i < ts.length) :
    ((prints s ts).getD i none).isSome = decide ((s.Whence + i + 1) % 8 = 0) := by
  have hP := prints_isSome ts s h
  have hlen : i < (prints s ts).length := by rw [prints_length]; exact hi
  have h1 := congrArg (fun l => l.getD i false) hP
  simp only [] at h1
  rw [List.getD_eq_getElem _ _ (by simpa using hlen),
    List.getD_eq_getElem _ _ (by simpa using hi)] at h1
  rw [List.getD_eq_getElem _ _ hlen]
  simpa using h1

end Jitterbits

/-- Claim C1.  From the initial globals, `N` firings make exactly `N / 8` calls
of `printf`; they happen during the firings numbered `8, 16, ..., 8 * (N / 8)`
and during no other firing; afterwards the cursor `Whence` is `N % 8`. -/
theorem C1_one_emission_per_eight_firings (ts : List Jitterbits.timeval) :
    (Jitterbits.emitted Jitterbits.State.init ts).length = ts.length / 8 ∧
    Jitterbits.emission_firings Jitterbits.State.init ts =
      (List.range (ts.length / 8)).map (fun k => 8 * (k + 1)) ∧
    (∀ n : Nat, 1 ≤ n → n ≤ ts.length →
      (((Jitterbits.prints Jitterbits.State.init ts).getD (n - 1) none).isSome = true ↔ 8 ∣ n)) ∧
    (Jitterbits.run Jitterbits.State.init ts).1.Whence = ts.length % 8 := by
  have h0 : Jitterbits.State.init.Whence < 8 := by decide
  have hz : Jitterbits.State.init.Whence = 0 := rfl
  refine ⟨?_, ?_, ?_, ?_⟩
  · rw [Jitterbits.emitted, Jitterbits.length_filterMap_id, Jitterbits.prints_isSome ts _ h0]
    simp only [hz, Nat.zero_add]
    exact Jitterbits.count_eighth ts.length
  · rw [Jitterbits.emission_firings, Jitterbits.prints_length, ← Jitterbits.filter_eighth]
    congr 1
    apply List.filter_congr
    intro i hi
    rw [Jitterbits.prints_getD_isSome ts _ h0 i (List.mem_range.mp hi), hz, Nat.zero_add]
  · intro n h1 hn
    rw [Jitterbits.prints_getD_isSome ts _ h0 (n - 1) (by omega), hz]
    simp only [decide_eq_true_eq]
    constructor <;> intro h <;> omega
  · rw [Jitterbits.run_whence ts _ h0, hz, Nat.zero_add]

/-- Claim C1 at seventeen firings: two emissions, during firings 8 and 16,
and one bit left in the register. -/
theorem C1_one_emission_per_eight_firings_witness :
    (Jitterbits.emitted Jitterbits.State.init
        ((List.range 17).map (fun i => ⟨0, i⟩))).length = 2 ∧
    (((Jitterbits.prints Jitterbits.State.init
        ((List.range 17).map (fun i => ⟨0, i⟩))).getD (16 - 1) none).isSome = true ↔ 8 ∣ 16) ∧
    (Jitterbits.run Jitterbits.State.init
        ((List.range 17).map (fun i => ⟨0, i⟩))).1.Whence = 1 :=
  ⟨(C1_one_emission_per_eight_firings ((List.range 17).map (fun i => ⟨0, i⟩))).1,
   (C1_one_emission_per_eight_firings ((List.range 17).map (fun i => ⟨0, i⟩))).2.2.1 16
     (by decide) (by decide),
   (C1_one_emission_per_eight_firings ((List.range 17).map (fun i => ⟨0, i⟩))).2.2.2⟩

/-- Claim C5.  From a cursor below `ROLLOVER` one call of the handler leaves
the cursor at `(Whence + 1) % 8`, so below `ROLLOVER`; the cursor is `0`
afterwards exactly when the incremented value is `ROLLOVER`, which is exactly
when the call prints.  In every state reached from the initial globals the
cursor is below `ROLLOVER`, and every shift amount used on the way is at most
`7`. -/
theorem C5_cursor_stays_below_rollover :
    (∀ (s : Jitterbits.State) (now : Jitterbits.timeval), s.Whence < Jitterbits.ROLLOVER →
      (Jitterbits.handle_alarm s now).next.Whence = (s.Whence + 1) % 8 ∧
      (Jitterbits.handle_alarm s now).next.Whence < Jitterbits.ROLLOVER ∧
      ((Jitterbits.handle_alarm s now).next.Whence = 0 ↔
        s.Whence + 1 = Jitterbits.ROLLOVER) ∧
      ((Jitterbits.handle_alarm s now).printed.isSome = true ↔
        s.Whence + 1 = Jitterbits.ROLLOVER)) ∧
    (∀ ts : List Jitterbits.timeval,
      (Jitterbits.run Jitterbits.State.init ts).1.Whence < Jitterbits.ROLLOVER ∧
      ∀ st ∈ (Jitterbits.run Jitterbits.State.init ts).2, st.shift ≤ 7) := by
  have h0 : Jitterbits.State.init.Whence < 8 := by decide
  constructor
  · intro s now h
    have h8 : s.Whence < 8 := h
    have hw := Jitterbits.handle_alarm_whence s now h8
    have hp := Jitterbits.handle_alarm_printed s now h8
    simp only [Jitterbits.ROLLOVER]
    refine ⟨hw, ?_, ?_, ?_⟩
    · omega
    · rw [hw]; omega
    · rw [hp]
      simp only [decide_eq_true_eq]
      omega
  · intro ts
    constructor
    · rw [Jitterbits.run_whence ts _ h0]
      simp only [Jitterbits.ROLLOVER]
      omega
    · intro st hst
      have := Jitterbits.run_shift ts _ h0 st hst
      omega

/-- Claim C5 at the cursor value `7`: the call wraps the cursor and prints. -/
theorem C5_cursor_stays_below_rollover_witness :
    (Jitterbits.handle_alarm ⟨0, 7⟩ ⟨0, 1⟩).next.Whence = (7 + 1) % 8 ∧
    (Jitterbits.handle_alarm ⟨0, 7⟩ ⟨0, 1⟩).next.Whence < Jitterbits.ROLLOVER ∧
    ((Jitterbits.handle_alarm ⟨0, 7⟩ ⟨0, 1⟩).next.Whence = 0 ↔ 7 + 1 = Jitterbits.ROLLOVER) ∧
    ((Jitterbits.handle_alarm ⟨0, 7⟩ ⟨0, 1⟩).printed.isSome = true ↔
      7 + 1 = Jitterbits.ROLLOVER) :=
  C5_cursor_stays_below_rollover.1 ⟨0, 7⟩ ⟨0, 1⟩ (by decide)

namespace Jitterbits

/-! ### One fill cycle -/

theorem fold_bit_lt (R b w : Nat) (hR : R < 256) (hb : b ≤ 1) (hw : w < 8) :
    R ^^^ (b <<< w) < 256 := by
  have hs : b <<< w < 2 ^ 8 := by
    rw [Nat.shiftLeft_eq]
    interval_cases b <;> interval_cases w <;> norm_num
  exact Nat.xor_lt_two_pow (n := 8) (by simpa using hR) hs

theorem fold_bit_mod (R b w : Nat) (hR : R < 256) (hb : b ≤ 1) (hw : w < 8) :
    (R ^^^ (b <<< w)) % 256 = R ^^^ (b <<< w) :=
  Nat.mod_eq_of_lt (fold_bit_lt R b w hR hb hw)

theorem eight_bits (b0 b1 b2 b3 b4 b5 b6 b7 : Nat) (h0 : b0 ≤ 1) (h1 : b1 ≤ 1) (h2 : b2 ≤ 1)
    (h3 : b3 ≤ 1) (h4 : b4 ≤ 1) (h5 : b5 ≤ 1) (h6 : b6 ≤ 1) (h7 : b7 ≤ 1) :
    (b0 <<< 0) ^^^ ((b1 <<< 1) ^^^ ((b2 <<< 2) ^^^ ((b3 <<< 3) ^^^ ((b4 <<< 4) ^^^
      ((b5 <<< 5) ^^^ ((b6 <<< 6) ^^^ (b7 <<< 7))))))) =
    b0 * 2 ^ 0 + b1 * 2 ^ 1 + b2 * 2 ^ 2 + b3 * 2 ^ 3 + b4 * 2 ^ 4 + b5 * 2 ^ 5 + b6 * 2 ^ 6 +
      b7 * 2 ^ 7 := by
  interval_cases b0 <;> interval_cases b1 <;> interval_cases b2 <;> interval_cases b3 <;>
    interval_cases b4 <;> interval_cases b5 <;> interval_cases b6 <;> interval_cases b7 <;> rfl

theorem handle_alarm_fold (R w : Nat) (now : timeval) (hR : R < 256) (hw : w + 1 < 8) :
    handle_alarm ⟨R, w⟩ now =
      { next := ⟨R ^^^ (jitter_bit now <<< w), w + 1⟩, shift := w, printed := none } := by
  rw [handle_alarm_below _ _ hw]
  simp only [fold_bit_mod R _ w hR (jitter_bit_le_one now) (by omega)]

theorem handle_alarm_emit (R : Nat) (now : timeval) (hR : R < 256) :
    handle_alarm ⟨R, 7⟩ now =
      { next := ⟨R ^^^ (jitter_bit now <<< 7), 0⟩, shift := 7,
        printed := some (R ^^^ (jitter_bit now <<< 7)) } := by
  rw [handle_alarm_full _ _ (by rfl)]
  simp only [fold_bit_mod R _ 7 hR (jitter_bit_le_one now) (by omega)]

/-- The byte folded in by eight consecutive timestamps. -/
theorem cycle_value_lt (t0 t1 t2 t3 t4 t5 t6 t7 : timeval) :
    usec_lsb t0 * 2 ^ 0 + usec_lsb t1 * 2 ^ 1 + usec_lsb t2 * 2 ^ 2 + usec_lsb t3 * 2 ^ 3 +
      usec_lsb t4 * 2 ^ 4 + usec_lsb t5 * 2 ^ 5 + usec_lsb t6 * 2 ^ 6 + usec_lsb t7 * 2 ^ 7
      < 256 := by
  have h0 := jitter_bit_le_one t0
  have h1 := jitter_bit_le_one t1
  have h2 := jitter_bit_le_one t2
  have h3 := jitter_bit_le_one t3
  have h4 := jitter_bit_le_one t4
  have h5 := jitter_bit_le_one t5
  have h6 := jitter_bit_le_one t6
  have h7 := jitter_bit_le_one t7
  simp only [jitter_bit_eq_lsb] at h0 h1 h2 h3 h4 h5 h6 h7
  omega

/-- Eight firings from an empty cursor: seven silent ones, then one that
prints the old register exclusive-or the byte of the eight jitter bits. -/
theorem run_cycle (R : Nat) (hR : R < 256) (t0 t1 t2 t3 t4 t5 t6 t7 : timeval)
    (rest : List timeval) :
    prints ⟨R, 0⟩ (t0 :: t1 :: t2 :: t3 :: t4 :: t5 :: t6 :: t7 :: rest) =
      none :: none :: none :: none :: none :: none :: none ::
        some (R ^^^ (usec_lsb t0 * 2 ^ 0 + usec_lsb t1 * 2 ^ 1 + usec_lsb t2 * 2 ^ 2 +
          usec_lsb t3 * 2 ^ 3 + usec_lsb t4 * 2 ^ 4 + usec_lsb t5 * 2 ^ 5 +
          usec_lsb t6 * 2 ^ 6 + usec_lsb t7 * 2 ^ 7)) ::
        prints ⟨R ^^^ (usec_lsb t0 * 2 ^ 0 + usec_lsb t1 * 2 ^ 1 + usec_lsb t2 * 2 ^ 2 +
          usec_lsb t3 * 2 ^ 3 + usec_lsb t4 * 2 ^ 4 + usec_lsb t5 * 2 ^ 5 +
          usec_lsb t6 * 2 ^ 6 + usec_lsb t7 * 2 ^ 7), 0⟩ rest := by
  have b0 := jitter_bit_le_one t0
  have b1 := jitter_bit_le_one t1
  have b2 := jitter_bit_le_one t2
  have b3 := jitter_bit_le_one t3
  have b4 := jitter_bit_le_one t4
  have b5 := jitter_bit_le_one t5
  have b6 := jitter_bit_le_one t6
  have b7 := jitter_bit_le_one t7
  have r0 := fold_bit_lt R _ 0 hR b0 (by norm_num)
  have r1 := fold_bit_lt _ _ 1 r0 b1 (by norm_num)
  have r2 := fold_bit_lt _ _ 2 r1 b2 (by norm_num)
  have r3 := fold_bit_lt _ _ 3 r2 b3 (by norm_num)
  have r4 := fold_bit_lt _ _ 4 r3 b4 (by norm_num)
  have r5 := fold_bit_lt _ _ 5 r4 b5 (by norm_num)
  have r6 := fold_bit_lt _ _ 6 r5 b6 (by norm_num)
  have hB := eight_bits _ _ _ _ _ _ _ _ b0 b1 b2 b3 b4 b5 b6 b7
  simp only [jitter_bit_eq_lsb] at hB
  rw [prints_cons, handle_alarm_fold R 0 t0 hR (by norm_num)]
  rw [prints_cons, handle_alarm_fold _ 1 t1 r0 (by norm_num)]
  rw [prints_cons, handle_alarm_fold _ 2 t2 r1 (by norm_num)]
  rw [prints_cons, handle_alarm_fold _ 3 t3 r2 (by norm_num)]
  rw [prints_cons, handle_alarm_fold _ 4 t4 r3 (by norm_num)]
  rw [prints_cons, handle_alarm_fold _ 5 t5 r4 (by norm_num)]
  rw [prints_cons, handle_alarm_fold _ 6 t6 r5 (by norm_num)]
  rw [prints_cons, handle_alarm_emit _ t7 r6]
  simp only [Nat.xor_assoc, jitter_bit_eq_lsb, hB]

end Jitterbits

/-- Claim C2.  From the initial globals, eight firings print exactly once, at
the eighth firing, and the value printed has the least-significant bit of the
microsecond field of the `i`-th timestamp at bit position `i`; the jitter
bits `1,0,1,0,1,0,1,0` give `0x55 = 85`. -/
theorem C2_eight_bits_make_the_byte :
    (∀ t0 t1 t2 t3 t4 t5 t6 t7 : Jitterbits.timeval,
      Jitterbits.prints Jitterbits.State.init [t0, t1, t2, t3, t4, t5, t6, t7] =
        [none, none, none, none, none, none, none,
          some (Jitterbits.usec_lsb t0 * 2 ^ 0 + Jitterbits.usec_lsb t1 * 2 ^ 1 +
            Jitterbits.usec_lsb t2 * 2 ^ 2 + Jitterbits.usec_lsb t3 * 2 ^ 3 +
            Jitterbits.usec_lsb t4 * 2 ^ 4 + Jitterbits.usec_lsb t5 * 2 ^ 5 +
            Jitterbits.usec_lsb t6 * 2 ^ 6 + Jitterbits.usec_lsb t7 * 2 ^ 7)] ∧
      Jitterbits.emitted Jitterbits.State.init [t0, t1, t2, t3, t4, t5, t6, t7] =
        [Jitterbits.usec_lsb t0 * 2 ^ 0 + Jitterbits.usec_lsb t1 * 2 ^ 1 +
          Jitterbits.usec_lsb t2 * 2 ^ 2 + Jitterbits.usec_lsb t3 * 2 ^ 3 +
          Jitterbits.usec_lsb t4 * 2 ^ 4 + Jitterbits.usec_lsb t5 * 2 ^ 5 +
          Jitterbits.usec_lsb t6 * 2 ^ 6 + Jitterbits.usec_lsb t7 * 2 ^ 7]) ∧
    Jitterbits.emitted Jitterbits.State.init
      [⟨0, 1⟩, ⟨0, 0⟩, ⟨0, 1⟩, ⟨0, 0⟩, ⟨0, 1⟩, ⟨0, 0⟩, ⟨0, 1⟩, ⟨0, 0⟩] = [0x55] ∧
    (0x55 : Nat) = 85 := by
  have key : ∀ t0 t1 t2 t3 t4 t5 t6 t7 : Jitterbits.timeval,
      Jitterbits.prints Jitterbits.State.init [t0, t1, t2, t3, t4, t5, t6, t7] =
        [none, none, none, none, none, none, none,
          some (Jitterbits.usec_lsb t0 * 2 ^ 0 + Jitterbits.usec_lsb t1 * 2 ^ 1 +
            Jitterbits.usec_lsb t2 * 2 ^ 2 + Jitterbits.usec_lsb t3 * 2 ^ 3 +
            Jitterbits.usec_lsb t4 * 2 ^ 4 + Jitterbits.usec_lsb t5 * 2 ^ 5 +
            Jitterbits.usec_lsb t6 * 2 ^ 6 + Jitterbits.usec_lsb t7 * 2 ^ 7)] := by
    intro t0 t1 t2 t3 t4 t5 t6 t7
    have h := Jitterbits.run_cycle 0 (by norm_num) t0 t1 t2 t3 t4 t5 t6 t7 []
    rw [Nat.zero_xor] at h
    exact h
  refine ⟨fun t0 t1 t2 t3 t4 t5 t6 t7 => ⟨key t0 t1 t2 t3 t4 t5 t6 t7, ?_⟩, by decide, by decide⟩
  rw [Jitterbits.emitted, key]
  rfl

namespace Jitterbits

/-! ### Successive fill cycles -/

theorem emitted_cycle (R : Nat) (hR : R < 256) (t0 t1 t2 t3 t4 t5 t6 t7 : timeval)
    (rest : List timeval) :
    emitted ⟨R, 0⟩ (t0 :: t1 :: t2 :: t3 :: t4 :: t5 :: t6 :: t7 :: rest) =
      (R ^^^ cycle_byte (t0 :: t1 :: t2 :: t3 :: t4 :: t5 :: t6 :: t7 :: rest) 1) ::
        emitted ⟨R ^^^ cycle_byte (t0 :: t1 :: t2 :: t3 :: t4 :: t5 :: t6 :: t7 :: rest) 1, 0⟩
          rest := by
  have hc : cycle_byte (t0 :: t1 :: t2 :: t3 :: t4 :: t5 :: t6 :: t7 :: rest) 1 =
      usec_lsb t0 * 2 ^ 0 + usec_lsb t1 * 2 ^ 1 + usec_lsb t2 * 2 ^ 2 + usec_lsb t3 * 2 ^ 3 +
        usec_lsb t4 * 2 ^ 4 + usec_lsb t5 * 2 ^ 5 + usec_lsb t6 * 2 ^ 6 + usec_lsb t7 * 2 ^ 7 := by
    have hr : List.range 8 = [0, 1, 2, 3, 4, 5, 6, 7] := by decide
    simp only [cycle_byte, hr, List.map_cons, List.map_nil, List.sum_cons, List.sum_nil]
    simp only [Nat.sub_self, Nat.mul_zero, Nat.zero_add, Nat.add_zero, List.getD_cons_zero,
      List.getD_cons_succ]
    omega
  rw [hc, emitted, run_cycle R hR]
  rfl

theorem cycle_byte_shift (t0 t1 t2 t3 t4 t5 t6 t7 : timeval) (rest : List timeval) (m : Nat) :
    cycle_byte (t0 :: t1 :: t2 :: t3 :: t4 :: t5 :: t6 :: t7 :: rest) (m + 2) =
      cycle_byte rest (m + 1) := by
  unfold cycle_byte
  congr 1

theorem xor_cycles_shift (t0 t1 t2 t3 t4 t5 t6 t7 : timeval) (rest : List timeval) (m : Nat) :
    xor_cycles (t0 :: t1 :: t2 :: t3 :: t4 :: t5 :: t6 :: t7 :: rest) (m + 1) =
      cycle_byte (t0 :: t1 :: t2 :: t3 :: t4 :: t5 :: t6 :: t7 :: rest) 1 ^^^
        xor_cycles rest m := by
  induction m with
  | zero => simp [xor_cycles]
  | succ n ih =>
    rw [xor_cycles, ih, cycle_byte_shift, Nat.xor_assoc]
    rfl

theorem cycle_byte_lt (ts : List timeval) (j : Nat) : cycle_byte ts j < 256 := by
  have hr : List.range 8 = [0, 1, 2, 3, 4, 5, 6, 7] := by decide
  simp only [cycle_byte, hr, List.map_cons, List.map_nil, List.sum_cons, List.sum_nil]
  have h := fun i => jitter_bit_le_one (ts.getD (8 * (j - 1) + i) ⟨0, 0⟩)
  simp only [jitter_bit_eq_lsb] at h
  have h0 := h 0
  have h1 := h 1
  have h2 := h 2
  have h3 := h 3
  have h4 := h 4
  have h5 := h 5
  have h6 := h 6
  have h7 := h 7
  omega

/-- The value printed at the end of cycle `j + 1`, from a register `R` and an
empty cursor. -/
theorem emitted_getElem (j : Nat) :
    ∀ (ts : List timeval) (R : Nat), R < 256 → 8 * (j + 1) ≤ ts.length →
      (emitted ⟨R, 0⟩ ts)[j]? = some (R ^^^ xor_cycles ts (j + 1)) := by
  induction j with
  | zero =>
    intro ts R hR hlen
    obtain ⟨t0, t1, t2, t3, t4, t5, t6, t7, rest, rfl⟩ :
        ∃ t0 t1 t2 t3 t4 t5 t6 t7 rest,
          ts = t0 :: t1 :: t2 :: t3 :: t4 :: t5 :: t6 :: t7 :: rest := by
      match ts, hlen with
      | t0 :: t1 :: t2 :: t3 :: t4 :: t5 :: t6 :: t7 :: rest, _ =>
        exact ⟨t0, t1, t2, t3, t4, t5, t6, t7, rest, rfl⟩
    rw [emitted_cycle R hR]
    simp [xor_cycles]
  | succ n ih =>
    intro ts R hR hlen
    obtain ⟨t0, t1, t2, t3, t4, t5, t6, t7, rest, rfl⟩ :
        ∃ t0 t1 t2 t3 t4 t5 t6 t7 rest,
          ts = t0 :: t1 :: t2 :: t3 :: t4 :: t5 :: t6 :: t7 :: rest := by
      match ts, hlen with
      | t0 :: t1 :: t2 :: t3 :: t4 :: t5 :: t6 :: t7 :: rest, _ =>
        exact ⟨t0, t1, t2, t3, t4, t5, t6, t7, rest, rfl⟩
    have hlen2 : 8 * (n + 1) ≤ rest.length := by
      simp only [List.length_cons] at hlen
      omega
    have hB := cycle_byte_lt (t0 :: t1 :: t2 :: t3 :: t4 :: t5 :: t6 :: t7 :: rest) 1
    have hRB : R ^^^ cycle_byte (t0 :: t1 :: t2 :: t3 :: t4 :: t5 :: t6 :: t7 :: rest) 1 < 256 :=
      Nat.xor_lt_two_pow (n := 8) (by simpa using hR) (by simpa using hB)
    rw [emitted_cycle R hR, List.getElem?_cons_succ, ih rest _ hRB hlen2,
      xor_cycles_shift t0 t1 t2 t3 t4 t5 t6 t7 rest (n + 1), Nat.xor_assoc]

end Jitterbits

/-- Claim C9.  The register is carried from one fill cycle to the next: after
`8 * k` firings from the initial globals, `k ≥ 1`, the `k`-th printed value
is the exclusive-or of the bytes `p_1, ..., p_k` of the `k` groups of eight
timestamps; it is `p_1` for `k = 1` and the previous printed value
exclusive-or `p_k` for `k ≥ 2`. -/
theorem C9_register_carries_over (ts : List Jitterbits.timeval) (k : Nat) (hk : 1 ≤ k)
    (hlen : ts.length = 8 * k) :
    (Jitterbits.emitted Jitterbits.State.init ts)[k - 1]? =
      some (Jitterbits.xor_cycles ts k) ∧
    (k = 1 → (Jitterbits.emitted Jitterbits.State.init ts)[k - 1]? =
      some (Jitterbits.cycle_byte ts 1)) ∧
    (2 ≤ k → ∃ prev : Nat,
      (Jitterbits.emitted Jitterbits.State.init ts)[k - 2]? = some prev ∧
      (Jitterbits.emitted Jitterbits.State.init ts)[k - 1]? =
        some (prev ^^^ Jitterbits.cycle_byte ts k)) := by
  have key : ∀ j : Nat, j + 1 ≤ k →
      (Jitterbits.emitted Jitterbits.State.init ts)[j]? =
        some (Jitterbits.xor_cycles ts (j + 1)) := by
    intro j hj
    have h := Jitterbits.emitted_getElem j ts 0 (by norm_num) (by omega)
    rw [Nat.zero_xor] at h
    exact h
  refine ⟨?_, ?_, ?_⟩
  · have h := key (k - 1) (by omega)
    rw [Nat.sub_add_cancel hk] at h
    exact h
  · intro h1
    subst h1
    rw [key 0 (by norm_num)]
    simp [Jitterbits.xor_cycles]
  · intro h2
    obtain ⟨m, rfl⟩ : ∃ m, k = m + 2 := ⟨k - 2, by omega⟩
    refine ⟨Jitterbits.xor_cycles ts (m + 1), key m (by omega), ?_⟩
    have h := key (m + 1) (by omega)
    rw [Jitterbits.xor_cycles] at h
    exact h

/-- Claim C9 at sixteen timestamps whose microsecond fields are `0 .. 15`: the
first printed value is `0xAA`, the second is `0xAA ^ 0xAA = 0`. -/
theorem C9_register_carries_over_witness :
    (Jitterbits.emitted Jitterbits.State.init
        ((List.range 16).map (fun i => ⟨0, i⟩)))[2 - 1]? =
      some (Jitterbits.xor_cycles ((List.range 16).map (fun i => ⟨0, i⟩)) 2) ∧
    (∃ prev : Nat,
      (Jitterbits.emitted Jitterbits.State.init
        ((List.range 16).map (fun i => ⟨0, i⟩)))[2 - 2]? = some prev ∧
      (Jitterbits.emitted Jitterbits.State.init
        ((List.range 16).map (fun i => ⟨0, i⟩)))[2 - 1]? =
        some (prev ^^^ Jitterbits.cycle_byte ((List.range 16).map (fun i => ⟨0, i⟩)) 2)) :=
  ⟨(C9_register_carries_over ((List.range 16).map (fun i => ⟨0, i⟩)) 2 (by decide)
      (by decide)).1,
   (C9_register_carries_over ((List.range 16).map (fun i => ⟨0, i⟩)) 2 (by decide)
      (by decide)).2.2 (by decide)⟩

/-- Claim C3, refuted as stated.  Seven firings with jitter bit `1` lead from
the initial globals to register `127`, cursor `7`; the eighth such firing
prints `255`; eight further firings with jitter bit `0` then print `255`
again, not `0x00`. -/
theorem C3_register_not_cleared :
    (Jitterbits.run Jitterbits.State.init (List.replicate 7 ⟨0, 1⟩)).1 = ⟨127, 7⟩ ∧
    (Jitterbits.handle_alarm ⟨127, 7⟩ ⟨0, 1⟩).printed = some 255 ∧
    (∀ z ∈ List.replicate 8 (⟨0, 0⟩ : Jitterbits.timeval), Jitterbits.jitter_bit z = 0) ∧
    Jitterbits.emitted (Jitterbits.handle_alarm ⟨127, 7⟩ ⟨0, 1⟩).next
      (List.replicate 8 ⟨0, 0⟩) = [255] ∧
    ¬ (∀ (before : List Jitterbits.timeval) (now : Jitterbits.timeval) (v : Nat),
        (Jitterbits.handle_alarm (Jitterbits.run Jitterbits.State.init before).1 now).printed
          = some v →
        (Jitterbits.handle_alarm (Jitterbits.run Jitterbits.State.init before).1 now).next.Whence
          = 0 ∧
        ∀ zs : List Jitterbits.timeval, zs.length = 8 →
          (∀ z ∈ zs, Jitterbits.jitter_bit z = 0) →
          Jitterbits.emitted
            (Jitterbits.handle_alarm (Jitterbits.run Jitterbits.State.init before).1 now).next zs
            = [0x00]) := by
  refine ⟨by decide, by decide, by decide, by decide, ?_⟩
  intro h
  have h1 := (h (List.replicate 7 ⟨0, 1⟩) ⟨0, 1⟩ 255 (by decide)).2
    (List.replicate 8 ⟨0, 0⟩) (by decide) (by decide)
  revert h1
  decide

/-- Claim C3, amended.  Whenever a call of the handler prints a value `v`, the
cursor is `0` afterwards and the register still holds `v`; if the jitter bit is
`0` in each of the next eight calls, the first seven print nothing and the
eighth prints `v` again. -/
theorem C3_cursor_reset_register_kept (s : Jitterbits.State) (now : Jitterbits.timeval)
    (v : Nat) (hv : (Jitterbits.handle_alarm s now).printed = some v) :
    (Jitterbits.handle_alarm s now).next.Whence = 0 ∧
    (Jitterbits.handle_alarm s now).next.Rand = v ∧
    ∀ z0 z1 z2 z3 z4 z5 z6 z7 : Jitterbits.timeval,
      Jitterbits.jitter_bit z0 = 0 → Jitterbits.jitter_bit z1 = 0 →
      Jitterbits.jitter_bit z2 = 0 → Jitterbits.jitter_bit z3 = 0 →
      Jitterbits.jitter_bit z4 = 0 → Jitterbits.jitter_bit z5 = 0 →
      Jitterbits.jitter_bit z6 = 0 → Jitterbits.jitter_bit z7 = 0 →
      Jitterbits.prints (Jitterbits.handle_alarm s now).next [z0, z1, z2, z3, z4, z5, z6, z7] =
        [none, none, none, none, none, none, none, some v] := by
  have hnext : (Jitterbits.handle_alarm s now).next = ⟨v, 0⟩ ∧ v < 256 := by
    simp only [Jitterbits.handle_alarm] at hv ⊢
    by_cases hc : (s.Whence + 1) % 256 ≥ Jitterbits.ROLLOVER
    · rw [if_pos hc] at hv ⊢
      simp only [Option.some.injEq] at hv
      subst hv
      exact ⟨rfl, Nat.mod_lt _ (by norm_num)⟩
    · rw [if_neg hc] at hv
      exact absurd hv (by simp)
  obtain ⟨hn, hlt⟩ := hnext
  rw [hn]
  refine ⟨rfl, rfl, ?_⟩
  intro z0 z1 z2 z3 z4 z5 z6 z7 h0 h1 h2 h3 h4 h5 h6 h7
  rw [Jitterbits.jitter_bit_eq_lsb] at h0 h1 h2 h3 h4 h5 h6 h7
  have h := Jitterbits.run_cycle v hlt z0 z1 z2 z3 z4 z5 z6 z7 []
  rw [h0, h1, h2, h3, h4, h5, h6, h7] at h
  simpa using h

/-- Claim C3, amended, at the register `127` with cursor `7` and an odd
microsecond count: `255` is printed, and printed again after eight firings
with jitter bit `0`. -/
theorem C3_cursor_reset_register_kept_witness :
    (Jitterbits.handle_alarm ⟨127, 7⟩ ⟨0, 1⟩).next.Whence = 0 ∧
    (Jitterbits.handle_alarm ⟨127, 7⟩ ⟨0, 1⟩).next.Rand = 255 ∧
    Jitterbits.prints (Jitterbits.handle_alarm ⟨127, 7⟩ ⟨0, 1⟩).next
        [⟨1, 0⟩, ⟨2, 0⟩, ⟨3, 0⟩, ⟨4, 0⟩, ⟨5, 0⟩, ⟨6, 0⟩, ⟨7, 0⟩, ⟨8, 0⟩] =
      [none, none, none, none, none, none, none, some 255] :=
  ⟨(C3_cursor_reset_register_kept ⟨127, 7⟩ ⟨0, 1⟩ 255 (by decide)).1,
   (C3_cursor_reset_register_kept ⟨127, 7⟩ ⟨0, 1⟩ 255 (by decide)).2.1,
   (C3_cursor_reset_register_kept ⟨127, 7⟩ ⟨0, 1⟩ 255 (by decide)).2.2
     ⟨1, 0⟩ ⟨2, 0⟩ ⟨3, 0⟩ ⟨4, 0⟩ ⟨5, 0⟩ ⟨6, 0⟩ ⟨7, 0⟩ ⟨8, 0⟩
     (by decide) (by decide) (by decide) (by decide) (by decide) (by decide) (by decide)
     (by decide)⟩

namespace Jitterbits

/-! ### What `printf` writes -/

set_option maxRecDepth 100000 in
theorem printf_u_nl_decimal :
    ∀ r < 256,
      printf_u_nl r =
          ((Nat.toDigits 10 r).map (fun c => c.toNat - 48)).map (· + 48) ++ [10] ∧
        (∀ d ∈ (Nat.toDigits 10 r).map (fun c => c.toNat - 48), d < 10) ∧
        Nat.ofDigits 10 ((Nat.toDigits 10 r).map (fun c => c.toNat - 48)).reverse = r ∧
        1 ≤ ((Nat.toDigits 10 r).map (fun c => c.toNat - 48)).length ∧
        ((Nat.toDigits 10 r).map (fun c => c.toNat - 48)).length ≤ 3 ∧
        (((Nat.toDigits 10 r).map (fun c => c.toNat - 48)).head? = some 0 →
          (Nat.toDigits 10 r).map (fun c => c.toNat - 48) = [0]) := by
  decide

end Jitterbits

/-- Claim C4, refuted as stated.  Jitter bits `1,0,0,0,0,0,1` lead from the
initial globals to register `65`, cursor `7`; the eighth firing, with jitter
bit `0`, fills the register at the value `65` and writes the three bytes
`'6'`, `'5'`, newline, not the single byte `65`. -/
theorem C4_output_is_not_one_raw_byte :
    (Jitterbits.run Jitterbits.State.init
      [⟨0, 1⟩, ⟨0, 0⟩, ⟨0, 0⟩, ⟨0, 0⟩, ⟨0, 0⟩, ⟨0, 0⟩, ⟨0, 1⟩]).1 = ⟨65, 7⟩ ∧
    (Jitterbits.handle_alarm ⟨65, 7⟩ ⟨0, 0⟩).printed = some 65 ∧
    (Jitterbits.handle_alarm ⟨65, 7⟩ ⟨0, 0⟩).stdout = [54, 53, 10] ∧
    ¬ (∀ (s : Jitterbits.State) (now : Jitterbits.timeval) (r : Nat), r < 256 →
        (Jitterbits.handle_alarm s now).printed = some r →
        (Jitterbits.handle_alarm s now).stdout = [r]) := by
  refine ⟨by decide, by decide, by decide, ?_⟩
  intro h
  have h1 := h ⟨65, 7⟩ ⟨0, 0⟩ 65 (by decide) (by decide)
  revert h1
  decide

/-- Claim C4, amended.  When the register is full the handler writes the value
`r` of the register, which is below `256`, as a line of decimal text: one to
three ASCII digits, most significant first and without a leading zero, then
one newline; so between two and four bytes, and never the single byte `r`. -/
theorem C4_output_is_a_decimal_line (s : Jitterbits.State) (now : Jitterbits.timeval)
    (r : Nat) (hr : (Jitterbits.handle_alarm s now).printed = some r) :
    r < 256 ∧
    (Jitterbits.handle_alarm s now).stdout = Jitterbits.printf_u_nl r ∧
    (∃ digits : List Nat,
      (Jitterbits.handle_alarm s now).stdout =
        digits.map (· + '0'.toNat) ++ ['\n'.toNat] ∧
      (∀ d ∈ digits, d < 10) ∧
      Nat.ofDigits 10 digits.reverse = r ∧
      1 ≤ digits.length ∧ digits.length ≤ 3 ∧
      (digits.head? = some 0 → digits = [0])) ∧
    (Jitterbits.handle_alarm s now).stdout ≠ [r] := by
  have hlt : r < 256 := by
    simp only [Jitterbits.handle_alarm] at hr
    by_cases hc : (s.Whence + 1) % 256 ≥ Jitterbits.ROLLOVER
    · rw [if_pos hc] at hr
      simp only [Option.some.injEq] at hr
      subst hr
      exact Nat.mod_lt _ (by norm_num)
    · rw [if_neg hc] at hr
      exact absurd hr (by simp)
  have hout : (Jitterbits.handle_alarm s now).stdout = Jitterbits.printf_u_nl r := by
    simp only [Jitterbits.Step.stdout, hr]
  obtain ⟨h1, h2, h3, h4, h5, h6⟩ := Jitterbits.printf_u_nl_decimal r hlt
  refine ⟨hlt, hout, ⟨_, hout.trans h1, h2, h3, h4, h5, h6⟩, ?_⟩
  rw [hout, h1]
  intro hbad
  have hl := congrArg List.length hbad
  simp only [List.length_append, List.length_map, List.length_cons, List.length_nil] at hl h4
  omega

/-- Claim C4, amended, at the register value `65`: the bytes are `54, 53, 10`. -/
theorem C4_output_is_a_decimal_line_witness :
    (Jitterbits.handle_alarm ⟨65, 7⟩ ⟨0, 0⟩).stdout = Jitterbits.printf_u_nl 65 ∧
    Jitterbits.printf_u_nl 65 = [54, 53, 10] ∧
    (Jitterbits.handle_alarm ⟨65, 7⟩ ⟨0, 0⟩).stdout ≠ [65] :=
  ⟨(C4_output_is_a_decimal_line ⟨65, 7⟩ ⟨0, 0⟩ 65 (by decide)).2.1, by decide,
   (C4_output_is_a_decimal_line ⟨65, 7⟩ ⟨0, 0⟩ 65 (by decide)).2.2.2⟩

namespace DeltaTime

end DeltaTime

namespace Jitterbits

/-! ### `strrchr` and the short program name -/

theorem strrchr_of_not_mem (s : List Char) (c : Char) (h : c ∉ s) : strrchr s c = none := by
  induction s with
  | nil => rfl
  | cons x xs ih =>
    have hx : ¬ x = c := fun e => h (by simp [e])
    have hxs : c ∉ xs := fun m => h (List.mem_cons_of_mem _ m)
    simp only [strrchr, ih hxs, if_neg hx]

theorem strrchr_last (dir base : List Char) (c : Char) (h : c ∉ base) :
    strrchr (dir ++ c :: base) c = some (c :: base) := by
  induction dir with
  | nil => simp only [List.nil_append, strrchr, strrchr_of_not_mem base c h, if_pos]
  | cons x xs ih =>
    show (match strrchr (xs ++ c :: base) c with
      | some t => some t
      | none => if x = c then some (x :: (xs ++ c :: base)) else none) = some (c :: base)
    rw [ih]

theorem shortname_no_slash (name : List Char) (h : '/' ∉ name) : shortname name = name := by
  simp only [shortname, strrchr_of_not_mem name '/' h]

theorem shortname_after_last_slash (dir base : List Char) (h : '/' ∉ base) :
    shortname (dir ++ '/' :: base) = base := by
  simp only [shortname, strrchr_last dir base '/' h, List.drop_succ_cons, List.drop_zero]

end Jitterbits

/-- Claim C7.  When the first `getopt` call reports an option (any value other
than `-1`), `main` makes exactly three calls: that `getopt`, the `fprintf` of
`"Usage: "`, the short program name and a newline to standard error, and
`exit(EX_USAGE)` with `EX_USAGE = 64`.  The short name is `argv[0]` when it has
no `'/'`, else what follows its last `'/'`.  Neither `signal` nor `setitimer`
is called, so no timer is running. -/
theorem C7_option_prints_usage_and_exits (env : Jitterbits.Env)
    (hopt : env.getopt_ret ≠ -1) :
    Jitterbits.main env =
      [Jitterbits.Event.getopt env.getopt_ret,
       Jitterbits.Event.fprintf_stderr
         ("Usage: ".toList ++ Jitterbits.shortname env.argv0 ++ ['\n']),
       Jitterbits.Event.exit Jitterbits.EX_USAGE] ∧
    Jitterbits.EX_USAGE = 64 ∧
    Jitterbits.exit_status (Jitterbits.main env) = some 64 ∧
    ('/' ∉ env.argv0 → Jitterbits.shortname env.argv0 = env.argv0) ∧
    (∀ dir base : List Char, env.argv0 = dir ++ '/' :: base → '/' ∉ base →
      Jitterbits.shortname env.argv0 = base) ∧
    (∀ e ∈ Jitterbits.main env,
      (∀ ok, e ≠ Jitterbits.Event.signal_SIGALRM ok) ∧
      (∀ v i ret, e ≠ Jitterbits.Event.setitimer v i ret)) ∧
    Jitterbits.timer_running (Jitterbits.main env) = false ∧
    ∀ ts, Jitterbits.program_stdout env ts = [] := by
  have hmain : Jitterbits.main env =
      [Jitterbits.Event.getopt env.getopt_ret,
       Jitterbits.Event.fprintf_stderr
         ("Usage: ".toList ++ Jitterbits.shortname env.argv0 ++ ['\n']),
       Jitterbits.Event.exit Jitterbits.EX_USAGE] := by
    simp only [Jitterbits.main, if_pos hopt, Jitterbits.emit_help]
  have hrun : Jitterbits.timer_running (Jitterbits.main env) = false := by
    rw [hmain]
    rfl
  refine ⟨hmain, rfl, ?_, Jitterbits.shortname_no_slash env.argv0, ?_, ?_, hrun, ?_⟩
  · rw [hmain]
    rfl
  · intro dir base he hb
    rw [he]
    exact Jitterbits.shortname_after_last_slash dir base hb
  · intro e he
    rw [hmain] at he
    simp only [List.mem_cons, List.mem_singleton, List.not_mem_nil, or_false] at he
    rcases he with h | h | h <;> subst h <;> exact ⟨fun _ => by simp, fun _ _ _ => by simp⟩
  · intro ts
    simp only [Jitterbits.program_stdout, hrun]
    rfl

/-- Claim C7 for `/usr/local/bin/jitterbits -h`, where `getopt` returns
`'h' = 104`. -/
theorem C7_option_prints_usage_and_exits_witness :
    Jitterbits.main ⟨"/usr/local/bin/jitterbits".toList, 104, true, 0, true, 3⟩ =
      [Jitterbits.Event.getopt 104,
       Jitterbits.Event.fprintf_stderr "Usage: jitterbits\n".toList,
       Jitterbits.Event.exit 64] ∧
    Jitterbits.exit_status
      (Jitterbits.main ⟨"/usr/local/bin/jitterbits".toList, 104, true, 0, true, 3⟩) = some 64 :=
  ⟨(C7_option_prints_usage_and_exits
      ⟨"/usr/local/bin/jitterbits".toList, 104, true, 0, true, 3⟩ (by decide)).1.trans
      (by decide),
   (C7_option_prints_usage_and_exits
      ⟨"/usr/local/bin/jitterbits".toList, 104, true, 0, true, 3⟩ (by decide)).2.2.1⟩

/-- Claim C6.  When `getopt` reports no option and either `signal` returns
`SIG_ERR` or `setitimer` returns `-1`, `main` ends in `err(EX_OSERR, ...)` with
`EX_OSERR = 71`; the message is `"could not setup signal() handler"` for
`signal` and `"could not setitimer()"` for `setitimer`, two different texts;
the `poll` loop is not reached and nothing is written to standard output. -/
theorem C6_setup_failure_exits_oserr (env : Jitterbits.Env) (hopt : env.getopt_ret = -1)
    (hfail : env.signal_ok = false ∨ env.setitimer_ret = -1) :
    Jitterbits.exit_status (Jitterbits.main env) = some Jitterbits.EX_OSERR ∧
    Jitterbits.EX_OSERR = 71 ∧
    (env.signal_ok = false →
      Jitterbits.main env =
        [Jitterbits.Event.getopt (-1), Jitterbits.Event.setlinebuf_stdout,
         Jitterbits.Event.signal_SIGALRM false,
         Jitterbits.Event.err 71 "could not setup signal() handler"]) ∧
    (env.signal_ok = true → env.setitimer_ret = -1 →
      Jitterbits.main env =
        [Jitterbits.Event.getopt (-1), Jitterbits.Event.setlinebuf_stdout,
         Jitterbits.Event.signal_SIGALRM true, Jitterbits.Event.setitimer 1 1 (-1),
         Jitterbits.Event.err 71 "could not setitimer()"]) ∧
    "could not setup signal() handler" ≠ "could not setitimer()" ∧
    Jitterbits.Event.poll_forever ∉ Jitterbits.main env ∧
    ∀ ts, Jitterbits.program_stdout env ts = [] := by
  have hsig : env.signal_ok = false →
      Jitterbits.main env =
        [Jitterbits.Event.getopt (-1), Jitterbits.Event.setlinebuf_stdout,
         Jitterbits.Event.signal_SIGALRM false,
         Jitterbits.Event.err 71 "could not setup signal() handler"] := by
    intro h
    simp [Jitterbits.main, hopt, h, Jitterbits.EX_OSERR]
  have htim : env.signal_ok = true → env.setitimer_ret = -1 →
      Jitterbits.main env =
        [Jitterbits.Event.getopt (-1), Jitterbits.Event.setlinebuf_stdout,
         Jitterbits.Event.signal_SIGALRM true, Jitterbits.Event.setitimer 1 1 (-1),
         Jitterbits.Event.err 71 "could not setitimer()"] := by
    intro h1 h2
    simp [Jitterbits.main, hopt, h1, h2, Jitterbits.EX_OSERR]
  have hcases : env.signal_ok = false ∨ (env.signal_ok = true ∧ env.setitimer_ret = -1) := by
    cases hs : env.signal_ok with
    | false => exact Or.inl rfl
    | true =>
      rcases hfail with h | h
      · rw [hs] at h; exact absurd h (by decide)
      · exact Or.inr ⟨rfl, h⟩
  refine ⟨?_, rfl, hsig, htim, by decide, ?_, ?_⟩
  · rcases hcases with h | ⟨h1, h2⟩
    · rw [hsig h]; rfl
    · rw [htim h1 h2]; rfl
  · rcases hcases with h | ⟨h1, h2⟩
    · rw [hsig h]; decide
    · rw [htim h1 h2]; decide
  · intro ts
    have hrun : Jitterbits.timer_running (Jitterbits.main env) = false := by
      rcases hcases with h | ⟨h1, h2⟩
      · rw [hsig h]; rfl
      · rw [htim h1 h2]; rfl
    simp only [Jitterbits.program_stdout, hrun]
    rfl

/-- Claim C6 when `setitimer` fails after `signal` succeeded. -/
theorem C6_setup_failure_exits_oserr_witness :
    Jitterbits.exit_status
      (Jitterbits.main ⟨"jitterbits".toList, -1, true, -1, true, 3⟩) = some 71 ∧
    Jitterbits.Event.poll_forever ∉
      Jitterbits.main ⟨"jitterbits".toList, -1, true, -1, true, 3⟩ :=
  ⟨(C6_setup_failure_exits_oserr ⟨"jitterbits".toList, -1, true, -1, true, 3⟩ (by decide)
      (Or.inr (by decide))).1,
   (C6_setup_failure_exits_oserr ⟨"jitterbits".toList, -1, true, -1, true, 3⟩ (by decide)
      (Or.inr (by decide))).2.2.2.2.2.1⟩

namespace Stripeofeol

/-! ### The loop of `trim_file` -/

theorem trim_loop_exit (data : List Char) (n fuel i : Nat) (only_newlines : Bool)
    (trunc_size : Nat) (h : n < i) :
    trim_loop data n (fuel + 1) i only_newlines trunc_size =
      some (only_newlines, trunc_size) := by
  simp only [trim_loop, if_neg (Nat.not_le.mpr h)]

theorem trim_loop_newline (data : List Char) (n fuel i : Nat) (only_newlines : Bool)
    (trunc_size : Nat) (c : Char) (h : i ≤ n) (hc : data[n - i]? = some c)
    (hnl : c = '\n' ∨ c = '\r') :
    trim_loop data n (fuel + 1) i only_newlines trunc_size =
      trim_loop data n fuel (i + 1) only_newlines trunc_size := by
  simp only [trim_loop, if_pos h, hc, if_pos hnl]

theorem trim_loop_other (data : List Char) (n fuel i : Nat) (only_newlines : Bool)
    (trunc_size : Nat) (c : Char) (h : i ≤ n) (hc : data[n - i]? = some c)
    (hnl : ¬ (c = '\n' ∨ c = '\r')) :
    trim_loop data n (fuel + 2) i only_newlines trunc_size = some (false, n - i + 1) := by
  simp only [trim_loop, if_pos h, hc, if_neg hnl]
  simp

/-- The loop on a file `body ++ tail` whose `tail` holds only line ends and
whose `body` is empty or ends in another byte, entered at a counter `i` that
has not left the tail. -/
theorem trim_loop_spec (body tail : List Char)
    (htail : ∀ x ∈ tail, x = '\n' ∨ x = '\r')
    (hbody : body = [] ∨ ∃ pre x, body = pre ++ [x] ∧ ¬ (x = '\n' ∨ x = '\r')) :
    ∀ (d i fuel : Nat), i + d = tail.length + 1 → 1 ≤ i →
      (body ++ tail).length + 2 ≤ fuel + i →
      trim_loop (body ++ tail) (body ++ tail).length fuel i true (body ++ tail).length =
        some (if body = [] then (true, (body ++ tail).length) else (false, body.length)) := by
  intro d
  induction d with
  | zero =>
    intro i fuel hi h1 hfuel
    have hi2 : i = tail.length + 1 := by omega
    rcases hbody with hb | ⟨pre, x, hb, hx⟩
    · subst hb
      obtain ⟨f, rfl⟩ : ∃ f, fuel = f + 1 := ⟨fuel - 1, by
        simp only [List.nil_append] at hfuel; omega⟩
      rw [trim_loop_exit _ _ _ _ _ _ (by simp only [List.nil_append]; omega)]
      simp
    · have hlen : (body ++ tail).length = pre.length + 1 + tail.length := by
        rw [hb]; simp only [List.length_append, List.length_cons, List.length_nil]
      obtain ⟨f, rfl⟩ : ∃ f, fuel = f + 2 := ⟨fuel - 2, by omega⟩
      have hget : (body ++ tail)[(body ++ tail).length - i]? = some x := by
        have hidx : (body ++ tail).length - i = pre.length := by omega
        rw [hidx, hb, List.append_assoc, List.getElem?_append_right (Nat.le_refl _)]
        simp
      rw [trim_loop_other _ _ _ _ _ _ x (by omega) hget hx]
      have hne : body ≠ [] := by rw [hb]; simp
      rw [if_neg hne]
      congr 2
      rw [hb] at hlen ⊢
      simp only [List.length_append, List.length_cons, List.length_nil]
      omega
  | succ d ih =>
    intro i fuel hi h1 hfuel
    have hlen : (body ++ tail).length = body.length + tail.length := List.length_append _ _
    obtain ⟨f, rfl⟩ : ∃ f, fuel = f + 1 := ⟨fuel - 1, by omega⟩
    have hidx : body.length ≤ (body ++ tail).length - i := by omega
    have hin : (body ++ tail).length - i - body.length < tail.length := by omega
    have hget : (body ++ tail)[(body ++ tail).length - i]? =
        some (tail[(body ++ tail).length - i - body.length]) := by
      rw [List.getElem?_append_right hidx, List.getElem?_eq_getElem hin]
    rw [trim_loop_newline _ _ _ _ _ _ _ (by omega) hget
      (htail _ (List.getElem_mem _))]
    exact ih (i + 1) f (by omega) (by omega) (by omega)

/-- Every file is a body followed by a run of line ends, the body being empty
or ending in another byte. -/
theorem split_trailing (data : List Char) :
    ∃ body tail, data = body ++ tail ∧ (∀ x ∈ tail, x = '\n' ∨ x = '\r') ∧
      (body = [] ∨ ∃ pre x, body = pre ++ [x] ∧ ¬ (x = '\n' ∨ x = '\r')) := by
  induction data using List.reverseRecOn with
  | nil => exact ⟨[], [], rfl, by simp, Or.inl rfl⟩
  | append_singleton xs x ih =>
    by_cases hx : x = '\n' ∨ x = '\r'
    · obtain ⟨body, tail, he, ht, hb⟩ := ih
      refine ⟨body, tail ++ [x], by rw [he, List.append_assoc], ?_, hb⟩
      intro y hy
      rcases List.mem_append.mp hy with h | h
      · exact ht y h
      · rw [List.mem_singleton.mp h]; exact hx
    · exact ⟨xs ++ [x], [], by simp, by simp, Or.inr ⟨xs, x, rfl, hx⟩⟩

theorem trim_file_split (body tail : List Char)
    (htail : ∀ x ∈ tail, x = '\n' ∨ x = '\r')
    (hbody : body = [] ∨ ∃ pre x, body = pre ++ [x] ∧ ¬ (x = '\n' ∨ x = '\r')) :
    trim_file (body ++ tail) = some body := by
  unfold trim_file
  by_cases h0 : (body ++ tail).length = 0
  · have hnil : body ++ tail = [] := List.length_eq_zero.mp h0
    simp only [h0, if_true]
    rw [hnil, (List.append_eq_nil.mp hnil).1]
  · simp only [h0, if_false]
    rw [trim_loop_spec body tail htail hbody tail.length 1 _ (by omega) (by omega) (by omega)]
    by_cases hb : body = []
    · subst hb
      simp only [if_true]
      rw [if_pos (by omega)]
      simp
    · simp only [if_neg hb]
      simp only [Bool.false_eq_true, if_false]
      by_cases hl : body.length < (body ++ tail).length
      · rw [if_pos hl, List.take_left' rfl]
      · rw [if_neg hl]
        have : tail = [] := by
          rw [List.length_append] at hl
          exact List.length_eq_zero.mp (by omega)
        rw [this, List.append_nil]

end Stripeofeol

/-- Claim C8.  On every file content `c`, `trim_file` returns, and the content
afterwards is the longest prefix of `c` that is empty or ends in a byte other
than `'\n'` and `'\r'`: it is such a prefix, no such prefix is longer, and the
bytes cut off are all `'\n'` or `'\r'`.  An empty file stays empty, a file of
line ends only becomes empty, and a file not ending in a line end is
unchanged. -/
theorem C8_trim_file_snips_trailing_line_ends (c : List Char) :
    ∃ r : List Char, Stripeofeol.trim_file c = some r ∧
      r <+: c ∧
      (r = [] ∨ ∃ x, r.getLast? = some x ∧ x ≠ '\n' ∧ x ≠ '\r') ∧
      (∀ p : List Char, p <+: c →
        (p = [] ∨ ∃ x, p.getLast? = some x ∧ x ≠ '\n' ∧ x ≠ '\r') → p.length ≤ r.length) ∧
      (∀ x ∈ c.drop r.length, x = '\n' ∨ x = '\r') ∧
      (c = [] → r = []) ∧
      ((∀ x ∈ c, x = '\n' ∨ x = '\r') → r = []) ∧
      ((∃ x, c.getLast? = some x ∧ x ≠ '\n' ∧ x ≠ '\r') → r = c) := by
  obtain ⟨body, tail, hc, htail, hbody⟩ := Stripeofeol.split_trailing c
  subst hc
  have hclean : body = [] ∨ ∃ x, body.getLast? = some x ∧ x ≠ '\n' ∧ x ≠ '\r' := by
    rcases hbody with h | ⟨pre, x, h, hx⟩
    · exact Or.inl h
    · refine Or.inr ⟨x, by rw [h, List.getLast?_concat], ?_, ?_⟩
      · exact fun e => hx (Or.inl e)
      · exact fun e => hx (Or.inr e)
  have hlongest : ∀ p : List Char, p <+: body ++ tail →
      (p = [] ∨ ∃ x, p.getLast? = some x ∧ x ≠ '\n' ∧ x ≠ '\r') →
      p.length ≤ body.length := by
    intro p hp hpc
    by_contra hlt
    have hlt2 : body.length < p.length := Nat.lt_of_not_le hlt
    have hbp : body <+: p :=
      List.prefix_of_prefix_length_le (List.prefix_append body tail) hp (Nat.le_of_lt hlt2)
    obtain ⟨t, ht⟩ := hbp
    subst ht
    have htne : t ≠ [] := by
      intro e
      subst e
      simp at hlt2
    have htp : t <+: tail := (List.prefix_append_right_inj body).mp hp
    rcases hpc with h | ⟨x, hx, hn, hr⟩
    · exact htne (List.append_eq_nil.mp h).2
    · rw [List.getLast?_append_of_ne_nil _ htne] at hx
      have hxt : x ∈ t := List.mem_of_getLast?_eq_some hx
      rcases htail x (htp.subset hxt) with h | h
      · exact hn h
      · exact hr h
  refine ⟨body, Stripeofeol.trim_file_split body tail htail hbody, List.prefix_append body tail,
    hclean, hlongest, ?_, ?_, ?_, ?_⟩
  · rw [List.drop_left]
    exact htail
  · intro h
    exact (List.append_eq_nil.mp h).1
  · intro hall
    rcases hclean with h | ⟨x, hx, hn, hr⟩
    · exact h
    · have hxb : x ∈ body := List.mem_of_getLast?_eq_some hx
      rcases hall x (List.mem_append_left tail hxb) with h | h
      · exact absurd h hn
      · exact absurd h hr
  · intro hlast
    have hle := hlongest (body ++ tail) List.prefix_rfl (Or.inr hlast)
    rw [List.length_append] at hle
    have : tail = [] := List.length_eq_zero.mp (by omega)
    rw [this, List.append_nil]
